import Mathlib

/-!
# The weekly insight-refresh job (`src/lib/inngest/functions.js`)

A shallow embedding of `generateIndustryInsights`: the cleaning of the model's
response text, the validation and enum mapping of the parsed document, the
per-industry `try`/`catch` loop and the update that is sent to storage.

Conventions of the embedding

* A JavaScript string is a `List Char`.  The regular expression and `trim` only
  look at characters of the Basic Multilingual Plane, so working with code
  points instead of UTF-16 code units does not change what they do.
* The collaborators (`db.industryInsight.findMany`, `model.generateContent`,
  `JSON.parse`, `db.industryInsight.update`, the clock) are fields of a
  `World`; each may answer differently depending on the calls made so far.
* `step.run(name, f)` runs `f` once and hands back what it returns or throws;
  `step.ai.wrap(name, f, prompt)` runs `f prompt` likewise.
* Every reading of the clock is a call of its own: line 203 reads it for
  `new Date()`, line 204 reads it again for `Date.now()`.
* Console output is not part of the model.
-/

namespace Sensai

/-! ## Strings -/

/-- A JavaScript string. -/
abbrev JSString := List Char

/-- The backtick character, U+0060. -/
def backtick : Char := Char.ofNat 96

/-- The line feed character, U+000A, written `\n` in the source. -/
def lineFeed : Char := Char.ofNat 10

/-- The three backticks every match of the regular expression starts with. -/
def fence : JSString := [backtick, backtick, backtick]

/-- The code points `String.prototype.trim` removes: ECMAScript `WhiteSpace`
(TAB, VT, FF, ZWNBSP and the category `Zs`) and `LineTerminator`. -/
def whiteSpaceCodes : List Nat :=
  [0x09, 0x0A, 0x0B, 0x0C, 0x0D, 0x20, 0xA0, 0x1680,
   0x2000, 0x2001, 0x2002, 0x2003, 0x2004, 0x2005, 0x2006, 0x2007, 0x2008, 0x2009, 0x200A,
   0x2028, 0x2029, 0x202F, 0x205F, 0x3000, 0xFEFF]

/-- Whether `trim` treats the character as white space. -/
def isWhiteSpace (c : Char) : Bool := whiteSpaceCodes.contains c.toNat

/-- The literal `lit` matched at the start of `s`: what follows it, or `none`. -/
def dropLit : JSString → JSString → Option JSString
  | [], s => some s
  | _ :: _, [] => none
  | a :: lit, b :: s => if a = b then dropLit lit s else none

/-- The optional group `(?:lit)?`, greedy: skip `lit` when it is there. -/
def skipLit (lit s : JSString) : JSString := (dropLit lit s).getD s

/-- The word of the optional group `(?:json)?`. -/
def jsonWord : JSString := "json".toList

/-- One match of the regular expression written in the source as three
backticks, `(?:json)?` and `\n?`, anchored at the start of `s`: the text after
the match, or `none` when `s` does not start with three backticks. -/
def fenceMatch (s : JSString) : Option JSString :=
  (dropLit fence s).map (fun r => skipLit [lineFeed] (skipLit jsonWord r))

/-- The global replace by the empty string, scanning from the left: a match is
dropped and scanning resumes after it, any other character is kept.  The first
argument bounds the number of steps. -/
def stripFencesFuel : Nat → JSString → JSString
  | 0, _ => []
  | n + 1, s =>
    match fenceMatch s with
    | some r => stripFencesFuel n r
    | none =>
      match s with
      | [] => []
      | c :: t => c :: stripFencesFuel n t

/-- The call `text.replace(re, "")` of line 165, `re` being the expression of
`fenceMatch` with the `g` flag: every step consumes a character, so the length
of the text is enough fuel. -/
def stripFences (s : JSString) : JSString := stripFencesFuel s.length s

/-- The method `String.prototype.trim`. -/
def trim (s : JSString) : JSString := (s.rdropWhile isWhiteSpace).dropWhile isWhiteSpace

/-- Line 165: `text.replace(re, "").trim()`. -/
def cleanText (s : JSString) : JSString := trim (stripFences s)

/-- Number of backticks `s` starts with. -/
def leadTicks : JSString → Nat
  | [] => 0
  | c :: t => if c = backtick then leadTicks t + 1 else 0

/-! ## Values -/

/-- An ECMAScript Number, as far as the job observes one: whether it is falsy
(`0`, `-0`, `NaN`) and the text `Number::toString` gives for it.  No arithmetic
is done on numbers of the document. -/
structure JSNumber where
  falsy : Bool
  text : JSString
deriving DecidableEq, Repr

/-- Plain data: what `JSON.parse` returns, and what the generation service
answers with.  An object is the list of its own properties in enumeration
order. -/
inductive JSVal where
  | undefined
  | null
  | bool (b : Bool)
  | num (n : JSNumber)
  | str (s : JSString)
  | arr (items : List JSVal)
  | obj (props : List (JSString × JSVal))

/-- What a property of `insights` can hold once the mapping has assigned to
it: plain data, or the member `name` that a mapping table inherits from
`Object.prototype`. -/
inductive Slot where
  | val (v : JSVal)
  | builtin (name : JSString)

/-- The own properties of the object `insights`, in enumeration order. -/
abbrev Record := List (JSString × Slot)

/-- A value of the `data` object handed to storage: a property spread from
`insights`, or a `Date` (its time value in milliseconds, or the invalid
date). -/
inductive Field where
  | slot (s : Slot)
  | date (t : Int)
  | invalidDate

/-- The `data` argument of `db.industryInsight.update`. -/
abbrev Data := List (JSString × Field)

/-- What a `throw` carries: `new Error(message)` made by the job itself, a
`TypeError` raised by the runtime, or whatever a collaborator threw. -/
inductive Thrown where
  | error (message : JSString)
  | typeError
  | foreign (tag : Nat)
deriving DecidableEq, Repr

/-- ECMAScript `ToBoolean`. -/
def JSVal.truthy : JSVal → Bool
  | .undefined => false
  | .null => false
  | .bool b => b
  | .num n => !n.falsy
  | .str s => !s.isEmpty
  | .arr _ => true
  | .obj _ => true

/-- The `typeof` operator. -/
def JSVal.typeOf : JSVal → JSString
  | .undefined => "undefined".toList
  | .null => "object".toList
  | .bool _ => "boolean".toList
  | .num _ => "number".toList
  | .str _ => "string".toList
  | .arr _ => "object".toList
  | .obj _ => "object".toList

/-- Whether `join` renders the element as the empty string. -/
def JSVal.isNullish : JSVal → Bool
  | .undefined => true
  | .null => true
  | _ => false

mutual
/-- ECMAScript `ToString` on plain data, used by the template literals of lines
187 and 193 and, as `ToPropertyKey`, by the computed member access of lines 184
and 190.  An array is its elements joined by commas.  An object without an own
`toString` gives `[object Object]`; with one, which being data is not callable,
`OrdinaryToPrimitive` falls through to `valueOf` and ends in a `TypeError`. -/
def JSVal.toStr : JSVal → Except Thrown JSString
  | .undefined => .ok "undefined".toList
  | .null => .ok "null".toList
  | .bool b => .ok (if b then "true".toList else "false".toList)
  | .num n => .ok n.text
  | .str s => .ok s
  | .arr [] => .ok []
  | .arr (x :: t) =>
      match (if x.isNullish then .ok [] else JSVal.toStr x), joinTail t with
      | .ok a, .ok b => .ok (a ++ b)
      | _, _ => .error .typeError
  | .obj props =>
      if (props.lookup "toString".toList).isSome then .error .typeError
      else .ok "[object Object]".toList
termination_by structural v => v
/-- The elements after the first in `Array.prototype.join`, each behind a comma. -/
def joinTail : List JSVal → Except Thrown JSString
  | [] => .ok []
  | x :: t =>
      match (if x.isNullish then .ok [] else JSVal.toStr x), joinTail t with
      | .ok a, .ok b => .ok (',' :: a ++ b)
      | _, _ => .error .typeError
termination_by structural v => v
end

/-- The names `Object.prototype` defines; an object literal such as a mapping
table inherits them. -/
def objectPrototypeNames : List JSString :=
  ["constructor".toList, "__defineGetter__".toList, "__defineSetter__".toList,
   "hasOwnProperty".toList, "__lookupGetter__".toList, "__lookupSetter__".toList,
   "isPrototypeOf".toList, "propertyIsEnumerable".toList, "toString".toList,
   "valueOf".toList, "__proto__".toList, "toLocaleString".toList]

/-- A property looked up on `Object.prototype`. -/
def protoGet (k : JSString) : Slot :=
  if objectPrototypeNames.contains k then .builtin k else .val .undefined

/-- ECMAScript `ToBoolean` of a slot: the inherited members are functions, or the
prototype object itself for `__proto__`, all truthy. -/
def Slot.truthy : Slot → Bool
  | .val v => v.truthy
  | .builtin _ => true

/-- ECMAScript `ToString` of a slot.  An inherited function renders as its source text
(`constructor` is the function `Object`), the prototype object as
`[object Object]`. -/
def Slot.toStr : Slot → Except Thrown JSString
  | .val v => v.toStr
  | .builtin name =>
      if name = "__proto__".toList then .ok "[object Object]".toList
      else if name = "constructor".toList then .ok "function Object() \x7b [native code] \x7d".toList
      else .ok ("function ".toList ++ name ++ "() \x7b [native code] \x7d".toList)

/-- Assignment to the property `k`: an existing property keeps its place, a new
one goes last. -/
def setKey {α : Type} (k : JSString) (v : α) : List (JSString × α) → List (JSString × α)
  | [] => [(k, v)]
  | (k', v') :: rest => if k' = k then (k, v) :: rest else (k', v') :: setKey k v rest

/-- The own enumerable properties of a value that passed the check of line 179:
those of an object, or the elements of an array under their indices. -/
def toRecord : JSVal → Record
  | .obj props => props.map (fun p => (p.1, Slot.val p.2))
  | .arr items => items.enum.map (fun p => (Nat.toDigits 10 p.1, Slot.val p.2))
  | _ => []

/-- The member access `insights.k`: an own property, else what the prototype
has.  It is used for `demandLevel` and `marketOutlook`, names that neither
`Object.prototype` nor `Array.prototype` defines. -/
def Record.get (r : Record) (k : JSString) : Slot :=
  match r.lookup k with
  | some s => s
  | none => protoGet k

/-- A mapping table of lines 74-84: an object literal with string values. -/
abbrev Table := List (JSString × JSString)

/-- Lines 74-78. -/
def demandLevelMapping : Table :=
  [("High".toList, "HIGH".toList), ("Medium".toList, "MEDIUM".toList), ("Low".toList, "LOW".toList)]

/-- Lines 80-84. -/
def marketOutlookMapping : Table :=
  [("Positive".toList, "POSITIVE".toList), ("Neutral".toList, "NEUTRAL".toList),
   ("Negative".toList, "NEGATIVE".toList)]

/-- The computed member access `table[key]`: an own property of the table,
else what `Object.prototype` has under that name. -/
def Table.get (t : Table) (key : JSString) : Slot :=
  match t.lookup key with
  | some v => .val (.str v)
  | none => protoGet key

/-- Lines 184-188 for `demandLevel` and 190-194 for `marketOutlook`:
`if (insights.f && table[insights.f]) insights.f = table[insights.f]; else
throw new Error("Invalid f value: " + insights.f)`. -/
def mapEnum (table : Table) (field : JSString) (insights : Record) : Except Thrown Record :=
  let v := insights.get field
  let invalid : Except Thrown Record :=
    match v.toStr with
    | .ok text => .error (.error ("Invalid ".toList ++ field ++ " value: ".toList ++ text))
    | .error e => .error e
  if v.truthy then
    match v.toStr with
    | .error e => .error e
    | .ok key =>
      if (table.get key).truthy then .ok (setKey field (table.get key) insights)
      else invalid
  else invalid

/-- The member access `v.k` on plain data, for the names the job reads from the
generation result (`response`, `candidates`, `content`, `parts`, `text`), none
of which a built-in prototype defines: a `TypeError` on `undefined` and `null`,
an own property of an object, `undefined` otherwise. -/
def getField (v : JSVal) (k : JSString) : Except Thrown JSVal :=
  match v with
  | .undefined => .error .typeError
  | .null => .error .typeError
  | .obj props => .ok ((props.lookup k).getD .undefined)
  | _ => .ok .undefined

/-- The indexed access `v[0]`. -/
def getFirst (v : JSVal) : Except Thrown JSVal :=
  match v with
  | .undefined => .error .typeError
  | .null => .error .typeError
  | .arr items => .ok (items.head?.getD .undefined)
  | .obj props => .ok ((props.lookup "0".toList).getD .undefined)
  | .str s => .ok (match s with | [] => .undefined | c :: _ => .str [c])
  | _ => .ok .undefined

/-- Line 164: `res.response.candidates[0].content.parts[0].text || ""`. -/
def responseText (res : JSVal) : Except Thrown JSVal := do
  let response ← getField res "response".toList
  let candidates ← getField response "candidates".toList
  let candidate ← getFirst candidates
  let content ← getField candidate "content".toList
  let parts ← getField content "parts".toList
  let part ← getFirst parts
  let text ← getField part "text".toList
  pure (if text.truthy then text else .str [])

/-- Line 165: `text.replace(...).trim()`; only a string has a `replace`
method, on anything else the call is a `TypeError`. -/
def cleanedTextOf (text : JSVal) : Except Thrown JSString :=
  match text with
  | .str s => .ok (cleanText s)
  | _ => .error .typeError

/-- Lines 179-181: `if (!insights || typeof insights !== "object") throw new
Error("Invalid insights format received from Gemini AI: " + cleanedText)`. -/
def validate (cleanedText : JSString) (insights : JSVal) : Except Thrown Unit :=
  if !insights.truthy || insights.typeOf != "object".toList then
    .error (.error ("Invalid insights format received from Gemini AI: ".toList ++ cleanedText))
  else .ok ()

/-- Lines 164-194, from the generation result to the mapped `insights`;
`jsonParse` is `JSON.parse`. -/
def prepare (jsonParse : JSString → Except Thrown JSVal) (res : JSVal) : Except Thrown Record := do
  let text ← responseText res
  let cleanedText ← cleanedTextOf text
  let insights ← jsonParse cleanedText
  validate cleanedText insights
  let mapped ← mapEnum demandLevelMapping "demandLevel".toList (toRecord insights)
  mapEnum marketOutlookMapping "marketOutlook".toList mapped

/-- Seven days in milliseconds, `7 * 24 * 60 * 60 * 1000` of line 204. -/
def sevenDays : Int := 7 * 24 * 60 * 60 * 1000

/-- The constructor call `new Date(t)`: a time value beyond 8.64e15 ms either
side of the epoch gives the invalid date. -/
def newDate (t : Int) : Field :=
  if -8640000000000000 ≤ t ∧ t ≤ 8640000000000000 then .date t else .invalidDate

/-- Lines 201-205: `{ ...insights, lastUpdated: new Date(), nextUpdate: new
Date(Date.now() + 7 * 24 * 60 * 60 * 1000) }`, the clock having read `t₁` for
`new Date()` and then `t₂` for `Date.now()`. -/
def updateData (insights : Record) (t₁ t₂ : Int) : Data :=
  setKey "nextUpdate".toList (newDate (t₂ + sevenDays))
    (setKey "lastUpdated".toList (Field.date t₁)
      (insights.map (fun p => (p.1, Field.slot p.2))))

/-- The template literal of lines 129-147 up to the interpolated industry. -/
def promptHead : JSString :=
  "\n            Analyze the current state of the ".toList

/-- The template literal of lines 129-147 after the interpolated industry. -/
def promptTail : JSString :=
  " industry and provide insights in ONLY the following JSON format without any additional notes or explanations:\n            \x7b\n              \"salaryRanges\": [\n                \x7b \"role\": \"string\", \"min\": number, \"max\": number, \"median\": number, \"location\": \"string\" \x7d\n              ],\n              \"growthRate\": number,\n              \"demandLevel\": \"High\" | \"Medium\" | \"Low\",\n              \"topSkills\": [\"skill1\", \"skill2\"],\n              \"marketOutlook\": \"Positive\" | \"Neutral\" | \"Negative\",\n              \"keyTrends\": [\"trend1\", \"trend2\"],\n              \"recommendedSkills\": [\"skill1\", \"skill2\"]\n            \x7d\n            \n            IMPORTANT: Return ONLY the JSON. No additional text, notes, or markdown formatting.\n            Include at least 5 common roles for salary ranges.\n            Growth rate should be a percentage.\n            Include at least 5 skills and trends.\n          ".toList

/-- Lines 129-147: the prompt for one industry. -/
def buildPrompt (industry : JSString) : JSString := promptHead ++ industry ++ promptTail

/-! ## The job -/

/-- A call the job makes to a collaborator, with what came back. -/
inductive Event where
  | findMany (result : Except Thrown (Option (List JSString)))
  | generate (prompt : JSString) (result : Except Thrown JSVal)
  | now (t : Int)
  | update (industry : JSString) (data : Data) (result : Except Thrown Unit)

/-- The collaborators.  `findMany` is the listing query with `select:
{ industry: true }`: it throws, or returns nothing (`null`, `undefined`), or
the industry of each row.  `now` is the clock behind `new Date()` and
`Date.now()`, a time value in milliseconds since the epoch.  What the
generation service, the clock and the update answer may depend on the calls
made before. -/
structure World where
  findMany : Except Thrown (Option (List JSString))
  generateContent : List Event → JSString → Except Thrown JSVal
  jsonParse : JSString → Except Thrown JSVal
  now : List Event → Int
  update : List Event → JSString → Data → Except Thrown Unit

/-- The body of the inner `try` (lines 127-212) for one industry, started after
the calls `tr`: the calls made so far and how the body ended. -/
def processIndustry (w : World) (tr : List Event) (industry : JSString) :
    List Event × Except Thrown Unit :=
  let prompt := buildPrompt industry
  let res := w.generateContent tr prompt
  let tr₁ := tr ++ [Event.generate prompt res]
  match res >>= prepare w.jsonParse with
  | .error e => (tr₁, .error e)
  | .ok insights =>
    let t₁ := w.now tr₁
    let tr₂ := tr₁ ++ [Event.now t₁]
    let t₂ := w.now tr₂
    let tr₃ := tr₂ ++ [Event.now t₂]
    let data := updateData insights t₁ t₂
    let r := w.update tr₃ industry data
    (tr₃ ++ [Event.update industry data r], r)

/-- The loop of lines 125-217: the `catch` of line 213 logs and carries on. -/
def processAll (w : World) : List Event → List JSString → List Event
  | tr, [] => tr
  | tr, industry :: rest =>
    match processIndustry w tr industry with
    | (tr₁, .ok _) => processAll w tr₁ rest
    | (tr₁, .error _) => processAll w tr₁ rest

/-- Lines 99-116, the step "Fetch industries": an error of the query is thrown
again, an absent or empty result becomes the empty list. -/
def fetchIndustries (w : World) : Except Thrown (List JSString) :=
  match w.findMany with
  | .error e => .error e
  | .ok none => .ok []
  | .ok (some industries) => if industries.length = 0 then .ok [] else .ok industries

/-- The handler of lines 89-222: the calls made and how the job ended; an error
reaching the outer `catch` is thrown again (line 220). -/
def generateIndustryInsights (w : World) : List Event × Except Thrown Unit :=
  let tr := [Event.findMany w.findMany]
  match fetchIndustries w with
  | .error e => (tr, .error e)
  | .ok industries =>
    if industries.length = 0 then (tr, .ok ())
    else (processAll w tr industries, .ok ())

/-! ## Reading a trace -/

/-- The calls one pass of the loop can make for `industry`: the generation
call alone when the pass fails before the update, or the generation call, the
two clock readings and the update. -/
def IsIteration (industry : JSString) (seg : List Event) : Prop :=
  (∃ res, seg = [Event.generate (buildPrompt industry) res]) ∨
  (∃ res insights t₁ t₂ r,
    seg = [Event.generate (buildPrompt industry) (.ok res), Event.now t₁, Event.now t₂,
      Event.update industry (updateData insights t₁ t₂) r])

/-- The prompts of the generation calls, in order. -/
def generatedPrompts (tr : List Event) : List JSString :=
  tr.filterMap fun e => match e with
    | Event.generate prompt _ => some prompt
    | _ => none

/-- The industries of the update calls, in order. -/
def issuedUpdates (tr : List Event) : List JSString :=
  tr.filterMap fun e => match e with
    | Event.update industry _ _ => some industry
    | _ => none

/-- The industries of the update calls storage accepted, in order. -/
def persistedUpdates (tr : List Event) : List JSString :=
  tr.filterMap fun e => match e with
    | Event.update industry _ (.ok _) => some industry
    | _ => none

/-- Plain data other than an array or an object: what the check of line 179
turns away. -/
def JSVal.isPrimitive : JSVal → Bool
  | .arr _ => false
  | .obj _ => false
  | _ => true

/-- The entries of the list whose pass through the loop body ends without an
error, the loop having started after the calls `tr`. -/
def succeeded (w : World) : List Event → List JSString → List JSString
  | _, [] => []
  | tr, industry :: rest =>
    match processIndustry w tr industry with
    | (tr₁, .ok _) => industry :: succeeded w tr₁ rest
    | (tr₁, .error _) => succeeded w tr₁ rest

/-- The names an update sets besides those spread from the document. -/
def mappedOrStamped : List JSString :=
  ["demandLevel".toList, "marketOutlook".toList, "lastUpdated".toList, "nextUpdate".toList]

/-! ## Sample collaborators -/

/-- A generation result whose first candidate's first part carries `text`. -/
def wrapResponse (text : JSVal) : JSVal :=
  .obj [("response".toList, .obj [("candidates".toList, .arr [.obj [("content".toList,
    .obj [("parts".toList, .arr [.obj [("text".toList, text)]])])]])])]

/-- The parser `JSON.parse` on the listed texts; any other text is a `SyntaxError`. -/
def parseTable (table : List (JSString × JSVal)) (text : JSString) : Except Thrown JSVal :=
  match table.lookup text with
  | some v => .ok v
  | none => .error (.foreign 0)

/-- A document with the given `demandLevel`, as text. -/
def docText (demand : JSString) : JSString :=
  "\x7b\"growthRate\": 5.2, \"demandLevel\": \"".toList ++ demand ++
    "\", \"marketOutlook\": \"Positive\", \"topSkills\": [\"Python\", \"SQL\"]\x7d".toList

/-- The same document, parsed. -/
def docValue (demand : JSString) : JSVal :=
  .obj [("growthRate".toList, .num ⟨false, "5.2".toList⟩), ("demandLevel".toList, .str demand),
    ("marketOutlook".toList, .str "Positive".toList),
    ("topSkills".toList, .arr [.str "Python".toList, .str "SQL".toList])]

/-- Storage lists two industries, the service answers both with the fenced
document, every update is accepted and the clock moves on by a millisecond with
every call. -/
def demoWorld : World where
  findMany := .ok (some ["tech-software-development".toList, "finance-banking".toList])
  generateContent := fun _ _ =>
    .ok (wrapResponse (.str ("```json\n".toList ++ docText "High".toList ++ "\n```".toList)))
  jsonParse := parseTable [(docText "High".toList, docValue "High".toList)]
  now := fun tr => 1700000000000 + tr.length
  update := fun _ _ _ => .ok ()

/-- Three industries; the generation call for the second one throws. -/
def flakyWorld : World where
  findMany := .ok (some ["tech-software-development".toList, "finance-banking".toList,
    "healthcare-nursing".toList])
  generateContent := fun _ prompt =>
    if prompt = buildPrompt "finance-banking".toList then .error (.foreign 7)
    else .ok (wrapResponse (.str (docText "High".toList)))
  jsonParse := parseTable [(docText "High".toList, docValue "High".toList)]
  now := fun tr => 1700000000000 + tr.length
  update := fun _ _ _ => .ok ()

/-- The listing query throws. -/
def brokenStorage : World where
  findMany := .error (.foreign 1)
  generateContent := fun _ _ => .ok (wrapResponse (.str (docText "High".toList)))
  jsonParse := parseTable [(docText "High".toList, docValue "High".toList)]
  now := fun tr => 1700000000000 + tr.length
  update := fun _ _ _ => .ok ()

/-- One industry, and a document whose `demandLevel` is `given`. -/
def oddWorld (given : JSString) : World where
  findMany := .ok (some ["tech-software-development".toList])
  generateContent := fun _ _ => .ok (wrapResponse (.str (docText given)))
  jsonParse := parseTable [(docText given, docValue given)]
  now := fun _ => 1700000000000
  update := fun _ _ _ => .ok ()

/-- One industry, and the response `[]`, an array. -/
def arrayWorld : World where
  findMany := .ok (some ["tech-software-development".toList])
  generateContent := fun _ _ => .ok (wrapResponse (.str "[]".toList))
  jsonParse := parseTable [("[]".toList, .arr [])]
  now := fun _ => 1700000000000
  update := fun _ _ _ => .ok ()

/-- One industry, and the response `42`, a number. -/
def numberWorld : World where
  findMany := .ok (some ["tech-software-development".toList])
  generateContent := fun _ _ => .ok (wrapResponse (.str " 42\n".toList))
  jsonParse := parseTable [("42".toList, .num ⟨false, "42".toList⟩)]
  now := fun _ => 1700000000000
  update := fun _ _ _ => .ok ()

/-- No suffix of the text starts with three backticks. -/
def FenceFree : JSString → Prop
  | [] => True
  | c :: t => leadTicks (c :: t) < 3 ∧ FenceFree t

/-! ## The cleaning step -/

theorem dropLit_length : ∀ (lit s r : JSString), dropLit lit s = some r → r.length + lit.length = s.length
  | [], s, r, h => by simp [dropLit] at h; simp [h]
  | _ :: _, [], r, h => by simp [dropLit] at h
  | a :: lit, b :: s, r, h => by
      simp only [dropLit] at h
      split at h
      · have := dropLit_length lit s r h
        simp; omega
      · simp at h

theorem skipLit_length_le (lit s : JSString) : (skipLit lit s).length ≤ s.length := by
  unfold skipLit
  cases h : dropLit lit s with
  | none => simp
  | some r => have := dropLit_length lit s r h; simp; omega

theorem fenceMatch_length {s r : JSString} (h : fenceMatch s = some r) : r.length < s.length := by
  unfold fenceMatch at h
  cases h1 : dropLit fence s with
  | none => simp [h1] at h
  | some u =>
    simp [h1] at h
    have h2 := dropLit_length fence s u h1
    have h3 := skipLit_length_le [lineFeed] (skipLit jsonWord u)
    have h4 := skipLit_length_le jsonWord u
    rw [h] at h3
    simp [fence] at h2
    omega

theorem stripFencesFuel_stable : ∀ (n m : Nat) (s : JSString), s.length ≤ n → s.length ≤ m →
    stripFencesFuel n s = stripFencesFuel m s
  | 0, 0, _, _, _ => rfl
  | 0, m + 1, s, h, _ => by
      have : s = [] := List.length_eq_zero.mp (by omega)
      subst this
      rfl
  | n + 1, 0, s, _, h => by
      have : s = [] := List.length_eq_zero.mp (by omega)
      subst this
      rfl
  | n + 1, m + 1, s, hn, hm => by
      simp only [stripFencesFuel]
      cases h : fenceMatch s with
      | some r =>
        have := fenceMatch_length h
        exact stripFencesFuel_stable n m r (by omega) (by omega)
      | none =>
        cases s with
        | nil => rfl
        | cons c t =>
          simp at hn hm
          simp [stripFencesFuel_stable n m t (by omega) (by omega)]

theorem stripFences_nil : stripFences [] = [] := rfl

theorem stripFences_match {s r : JSString} (h : fenceMatch s = some r) :
    stripFences s = stripFences r := by
  have hl := fenceMatch_length h
  unfold stripFences
  obtain ⟨n, hn⟩ : ∃ n, s.length = n + 1 := ⟨s.length - 1, by omega⟩
  rw [hn]
  simp only [stripFencesFuel, h]
  exact stripFencesFuel_stable _ _ r (by omega) (le_refl _)

theorem stripFences_keep {c : Char} {t : JSString} (h : fenceMatch (c :: t) = none) :
    stripFences (c :: t) = c :: stripFences t := by
  unfold stripFences
  simp [stripFencesFuel, h]

theorem dropLit_fence_eq_none {s : JSString} (h : leadTicks s < 3) : dropLit fence s = none := by
  unfold fence
  match s with
  | [] => rfl
  | [a] => by_cases ha : backtick = a <;> simp [dropLit, ha]
  | [a, b] => by_cases ha : backtick = a <;> by_cases hb : backtick = b <;> simp [dropLit, ha, hb]
  | a :: b :: c :: r =>
    by_cases ha : backtick = a
    · subst ha
      by_cases hb : backtick = b
      · subst hb
        by_cases hc : backtick = c
        · subst hc
          exfalso
          simp [leadTicks] at h
          omega
        · simp [dropLit, hc]
      · simp [dropLit, hb]
    · simp [dropLit, ha]

theorem fenceMatch_eq_none {s : JSString} (h : leadTicks s < 3) : fenceMatch s = none := by
  simp [fenceMatch, dropLit_fence_eq_none h]

theorem leadTicks_fence_append (r : JSString) : leadTicks (fence ++ r) = leadTicks r + 3 := by
  simp [fence, leadTicks]

theorem fence_of_leadTicks {s : JSString} (h : 3 ≤ leadTicks s) : ∃ r, s = fence ++ r := by
  match s with
  | [] => simp [leadTicks] at h
  | [a] => by_cases ha : a = backtick <;> simp [leadTicks, ha] at h
  | [a, b] => by_cases ha : a = backtick <;> by_cases hb : b = backtick <;> simp [leadTicks, ha, hb] at h
  | a :: b :: c :: r =>
    by_cases ha : a = backtick
    · by_cases hb : b = backtick
      · by_cases hc : c = backtick
        · exact ⟨r, by simp [fence, ha, hb, hc]⟩
        · simp [leadTicks, ha, hb, hc] at h
      · simp [leadTicks, ha, hb] at h
    · simp [leadTicks, ha] at h

theorem fenceFree_iff (s : JSString) : FenceFree s ↔ ¬ fence <:+: s := by
  induction s with
  | nil => simp [FenceFree, fence]
  | cons c t ih =>
    simp only [FenceFree, List.infix_cons_iff, ih, not_or]
    constructor
    · rintro ⟨h1, h2⟩
      refine ⟨?_, h2⟩
      rintro ⟨r, hr⟩
      rw [← hr, leadTicks_fence_append] at h1
      omega
    · rintro ⟨h1, h2⟩
      refine ⟨?_, h2⟩
      by_contra hlt
      obtain ⟨r, hr⟩ := fence_of_leadTicks (Nat.le_of_not_lt hlt)
      exact h1 ⟨r, hr.symm⟩

theorem stripFences_of_fenceFree : ∀ (s : JSString), FenceFree s → stripFences s = s
  | [], _ => rfl
  | c :: t, h => by
      rw [stripFences_keep (fenceMatch_eq_none h.1), stripFences_of_fenceFree t h.2]

theorem leadTicks_stripFences : ∀ (s : JSString), leadTicks s < 3 →
    leadTicks (stripFences s) = leadTicks s
  | [], _ => rfl
  | c :: t, h => by
      rw [stripFences_keep (fenceMatch_eq_none h)]
      by_cases hc : c = backtick
      · simp only [leadTicks, hc, if_true] at h ⊢
        rw [leadTicks_stripFences t (by omega)]
      · simp [leadTicks, hc]

theorem fenceFree_stripFencesFuel : ∀ (n : Nat) (s : JSString), s.length ≤ n →
    FenceFree (stripFences s)
  | 0, s, h => by
      have : s = [] := List.length_eq_zero.mp (by omega)
      subst this
      trivial
  | n + 1, s, h => by
      cases hm : fenceMatch s with
      | some r =>
        rw [stripFences_match hm]
        have := fenceMatch_length hm
        exact fenceFree_stripFencesFuel n r (by omega)
      | none =>
        cases s with
        | nil => trivial
        | cons c t =>
          have hlt : leadTicks (c :: t) < 3 := by
            by_contra hge
            obtain ⟨r, hr⟩ := fence_of_leadTicks (Nat.le_of_not_lt hge)
            rw [hr] at hm
            simp [fenceMatch, fence, dropLit] at hm
          have hk := stripFences_keep hm
          rw [hk]
          refine ⟨?_, fenceFree_stripFencesFuel n t (by simpa using h)⟩
          rw [← hk, leadTicks_stripFences _ hlt]
          exact hlt

theorem fenceFree_stripFences (s : JSString) : FenceFree (stripFences s) :=
  fenceFree_stripFencesFuel s.length s (le_refl _)

theorem trim_within (s : JSString) : trim s <:+: s :=
  (List.dropWhile_suffix isWhiteSpace).isInfix.trans (List.rdropWhile_prefix isWhiteSpace s).isInfix

theorem trim_head (s : JSString) (c : Char) (h : (trim s).head? = some c) :
    isWhiteSpace c = false := by
  unfold trim at h
  have hne : List.dropWhile isWhiteSpace (s.rdropWhile isWhiteSpace) ≠ [] := by
    intro h0; rw [h0] at h; simp at h
  have := List.head_dropWhile_not isWhiteSpace (s.rdropWhile isWhiteSpace) hne
  rw [List.head?_eq_head hne] at h
  simp at h
  rw [← h]
  simpa using this

theorem trim_getLast (s : JSString) (c : Char) (h : (trim s).getLast? = some c) :
    isWhiteSpace c = false := by
  unfold trim at h
  have hne : List.dropWhile isWhiteSpace (s.rdropWhile isWhiteSpace) ≠ [] := by
    intro h0; rw [h0] at h; simp at h
  have hne2 : s.rdropWhile isWhiteSpace ≠ [] := by
    intro h0; rw [h0] at hne; simp at hne
  have hsuf : List.dropWhile isWhiteSpace (s.rdropWhile isWhiteSpace) <:+ s.rdropWhile isWhiteSpace :=
    List.dropWhile_suffix isWhiteSpace
  have hl := List.rdropWhile_last_not isWhiteSpace s hne2
  rw [List.getLast?_eq_getLast _ hne] at h
  simp at h
  obtain ⟨pre, hpre⟩ := hsuf
  have key : ∀ (y z : JSString) (hz : z ≠ []) (hy : y ≠ []), pre ++ z = y →
      y.getLast hy = z.getLast hz := by
    intro y z hz hy e
    subst e
    exact List.getLast_append_of_ne_nil hz
  have : (s.rdropWhile isWhiteSpace).getLast hne2 = c := by
    rw [← h]
    exact key _ _ hne hne2 hpre
  rw [this] at hl
  cases hc : isWhiteSpace c
  · rfl
  · exact absurd hc hl

theorem trim_trim (s : JSString) : trim (trim s) = trim s := by
  have h1 : (trim s).rdropWhile isWhiteSpace = trim s := by
    rw [List.rdropWhile_eq_self_iff]
    intro hl
    have := trim_getLast s ((trim s).getLast hl) (List.getLast?_eq_getLast _ hl)
    rw [this]
    exact Bool.false_ne_true
  show ((trim s).rdropWhile isWhiteSpace).dropWhile isWhiteSpace = trim s
  rw [h1]
  unfold trim
  exact List.dropWhile_idempotent _ _

theorem leadTicks_append_lineFeed (u x : JSString) :
    leadTicks (u ++ lineFeed :: x) = leadTicks u := by
  induction u with
  | nil =>
    have : lineFeed ≠ backtick := by decide
    simp [leadTicks, this]
  | cons a t ih =>
    by_cases ha : a = backtick <;> simp [leadTicks, ha, ih]

theorem stripFences_fence : stripFences fence = [] := by
  have h : fenceMatch fence = some [] := by decide
  rw [stripFences_match h]
  rfl

theorem stripFences_closing : ∀ (c : JSString), FenceFree c →
    stripFences (c ++ lineFeed :: fence) = c ++ [lineFeed]
  | [], _ => by
      have h : fenceMatch (lineFeed :: fence) = none := by decide
      rw [List.nil_append, stripFences_keep h, stripFences_fence]
      rfl
  | a :: t, h => by
      have hl : leadTicks (a :: t ++ lineFeed :: fence) < 3 := by
        rw [leadTicks_append_lineFeed]; exact h.1
      have hk : stripFences (a :: (t ++ lineFeed :: fence)) = a :: stripFences (t ++ lineFeed :: fence) :=
        stripFences_keep (fenceMatch_eq_none hl)
      rw [List.cons_append, hk, stripFences_closing t h.2, List.cons_append]

theorem fenceMatch_json_opening (rest : JSString) :
    fenceMatch (fence ++ jsonWord ++ lineFeed :: rest) = some rest := by
  simp [fenceMatch, fence, jsonWord, dropLit, skipLit]

theorem fenceMatch_plain_opening (rest : JSString) :
    fenceMatch (fence ++ lineFeed :: rest) = some rest := by
  have : ¬ 'j' = lineFeed := by decide
  simp [fenceMatch, fence, jsonWord, dropLit, skipLit, this]

theorem trim_append_lineFeed (c : JSString) : trim (c ++ [lineFeed]) = trim c := by
  unfold trim
  rw [List.rdropWhile_concat_pos _ _ _ (by decide)]

theorem isWhiteSpace_iff (x : Char) : isWhiteSpace x = true ↔ x.toNat ∈ whiteSpaceCodes := by
  unfold isWhiteSpace
  exact List.elem_iff

theorem rdropWhile_append_rtakeWhile (p : Char → Bool) (l : JSString) :
    l.rdropWhile p ++ l.rtakeWhile p = l := by
  have h := congrArg List.reverse (List.takeWhile_append_dropWhile p l.reverse)
  rw [List.reverse_append, List.reverse_reverse] at h
  exact h

theorem trim_decomposes (s : JSString) :
    s = (s.rdropWhile isWhiteSpace).takeWhile isWhiteSpace ++ trim s
      ++ s.rtakeWhile isWhiteSpace := by
  unfold trim
  rw [List.takeWhile_append_dropWhile, rdropWhile_append_rtakeWhile]

/-- C6. Code-fence unwrapping: a content `c` without three consecutive
backticks is some white space, a middle part that neither starts nor ends with
white space, and some white space again; cleaning `c` wrapped in a fence, with
or without the `json` tag, gives that middle part, character for character, and
so does cleaning `c` itself.  White space is spelled out as the code points
`trim` removes. -/
theorem cleanText_unwraps_fence (c : JSString) (h : ¬ fence <:+: c) :
    ∃ before middle after,
      c = before ++ middle ++ after ∧
      (∀ x ∈ before ++ after, x.toNat ∈
        [0x09, 0x0A, 0x0B, 0x0C, 0x0D, 0x20, 0xA0, 0x1680, 0x2000, 0x2001, 0x2002,
          0x2003, 0x2004, 0x2005, 0x2006, 0x2007, 0x2008, 0x2009, 0x200A, 0x2028, 0x2029, 0x202F,
          0x205F, 0x3000, 0xFEFF]) ∧
      (∀ x, middle.head? = some x ∨ middle.getLast? = some x → x.toNat ∉
        [0x09, 0x0A, 0x0B, 0x0C, 0x0D, 0x20, 0xA0, 0x1680, 0x2000, 0x2001, 0x2002,
          0x2003, 0x2004, 0x2005, 0x2006, 0x2007, 0x2008, 0x2009, 0x200A, 0x2028, 0x2029, 0x202F,
          0x205F, 0x3000, 0xFEFF]) ∧
      cleanText ("```json\n".toList ++ c ++ "\n```".toList) = middle ∧
      cleanText ("```\n".toList ++ c ++ "\n```".toList) = middle ∧
      cleanText c = middle := by
  have hf : FenceFree c := (fenceFree_iff c).mpr h
  have e1 : "```json\n".toList ++ c ++ "\n```".toList
      = fence ++ jsonWord ++ lineFeed :: (c ++ lineFeed :: fence) := by
    simp [fence, jsonWord, lineFeed, backtick]
  have e2 : "```\n".toList ++ c ++ "\n```".toList = fence ++ lineFeed :: (c ++ lineFeed :: fence) := by
    simp [fence, lineFeed, backtick]
  have hc : cleanText c = trim c := by
    unfold cleanText
    rw [stripFences_of_fenceFree c hf]
  refine ⟨(c.rdropWhile isWhiteSpace).takeWhile isWhiteSpace, trim c,
    c.rtakeWhile isWhiteSpace, trim_decomposes c, ?_, ?_, ?_, ?_, hc⟩
  · intro x hx
    have hw : isWhiteSpace x = true := by
      rcases List.mem_append.mp hx with hx | hx
      · exact List.mem_takeWhile_imp hx
      · exact List.mem_rtakeWhile_imp hx
    exact (isWhiteSpace_iff x).mp hw
  · intro x hx hmem
    have hw : isWhiteSpace x = true := (isWhiteSpace_iff x).mpr hmem
    have hn : isWhiteSpace x = false := by
      rcases hx with hx | hx
      · exact trim_head c x hx
      · exact trim_getLast c x hx
    rw [hw] at hn
    cases hn
  · rw [e1]
    unfold cleanText
    rw [stripFences_match (fenceMatch_json_opening _), stripFences_closing c hf, trim_append_lineFeed]
  · rw [e2]
    unfold cleanText
    rw [stripFences_match (fenceMatch_plain_opening _), stripFences_closing c hf, trim_append_lineFeed]

set_option maxRecDepth 100000 in
/-- C6, on a sample document between two blanks and a line feed. -/
theorem cleanText_unwraps_fence_witness :
    ¬ fence <:+: ("  ".toList ++ docText "High".toList ++ "\n".toList) ∧
    ∃ before middle after,
      "  ".toList ++ docText "High".toList ++ "\n".toList = before ++ middle ++ after ∧
      (∀ x ∈ before ++ after, x.toNat ∈
        [0x09, 0x0A, 0x0B, 0x0C, 0x0D, 0x20, 0xA0, 0x1680, 0x2000, 0x2001, 0x2002,
          0x2003, 0x2004, 0x2005, 0x2006, 0x2007, 0x2008, 0x2009, 0x200A, 0x2028, 0x2029, 0x202F,
          0x205F, 0x3000, 0xFEFF]) ∧
      (∀ x, middle.head? = some x ∨ middle.getLast? = some x → x.toNat ∉
        [0x09, 0x0A, 0x0B, 0x0C, 0x0D, 0x20, 0xA0, 0x1680, 0x2000, 0x2001, 0x2002,
          0x2003, 0x2004, 0x2005, 0x2006, 0x2007, 0x2008, 0x2009, 0x200A, 0x2028, 0x2029, 0x202F,
          0x205F, 0x3000, 0xFEFF]) ∧
      cleanText ("```json\n".toList ++ ("  ".toList ++ docText "High".toList ++ "\n".toList)
        ++ "\n```".toList) = middle ∧
      cleanText ("```\n".toList ++ ("  ".toList ++ docText "High".toList ++ "\n".toList)
        ++ "\n```".toList) = middle ∧
      cleanText ("  ".toList ++ docText "High".toList ++ "\n".toList) = middle :=
  ⟨by decide, cleanText_unwraps_fence _ (by decide)⟩

/-- C7. Idempotence of the cleaning step: cleaning a cleaned text changes
nothing; a cleaned text never contains three consecutive backticks and neither
starts nor ends with white space, whatever runs of backticks or nested fences
the input had. -/
theorem cleanText_idempotent (s : JSString) :
    cleanText (cleanText s) = cleanText s ∧
    ¬ fence <:+: cleanText s ∧
    (∀ c, (cleanText s).head? = some c → isWhiteSpace c = false) ∧
    (∀ c, (cleanText s).getLast? = some c → isWhiteSpace c = false) := by
  have hfree : ¬ fence <:+: cleanText s := by
    intro hin
    exact (fenceFree_iff _).mp (fenceFree_stripFences s) (hin.trans (trim_within _))
  refine ⟨?_, hfree, trim_head _, trim_getLast _⟩
  show trim (stripFences (cleanText s)) = cleanText s
  rw [stripFences_of_fenceFree _ ((fenceFree_iff _).mpr hfree)]
  exact trim_trim _

/-! ## The loop -/

theorem processIndustry_cases (w : World) (tr : List Event) (X : JSString) :
    (∃ e, (w.generateContent tr (buildPrompt X) >>= prepare w.jsonParse) = .error e ∧
      processIndustry w tr X =
        (tr ++ [Event.generate (buildPrompt X) (w.generateContent tr (buildPrompt X))], .error e)) ∨
    (∃ res insights t₁ t₂ r,
      w.generateContent tr (buildPrompt X) = .ok res ∧
      prepare w.jsonParse res = .ok insights ∧
      t₁ = w.now (tr ++ [Event.generate (buildPrompt X) (.ok res)]) ∧
      t₂ = w.now (tr ++ [Event.generate (buildPrompt X) (.ok res), Event.now t₁]) ∧
      r = w.update (tr ++ [Event.generate (buildPrompt X) (.ok res), Event.now t₁, Event.now t₂]) X
            (updateData insights t₁ t₂) ∧
      processIndustry w tr X =
        (tr ++ [Event.generate (buildPrompt X) (.ok res), Event.now t₁, Event.now t₂,
          Event.update X (updateData insights t₁ t₂) r], r)) := by
  cases hp : (w.generateContent tr (buildPrompt X) >>= prepare w.jsonParse) with
  | error e =>
    left
    exact ⟨e, rfl, by simp only [processIndustry, hp]⟩
  | ok insights =>
    right
    cases hg : w.generateContent tr (buildPrompt X) with
    | error e => rw [hg] at hp; cases hp
    | ok res =>
      rw [hg] at hp
      refine ⟨res, insights, _, _, _, rfl, hp, rfl, rfl, rfl, ?_⟩
      have hp' : (Except.ok res >>= prepare w.jsonParse) = .ok insights := hp
      simp only [processIndustry, hg, hp', List.append_assoc, List.singleton_append,
        List.cons_append, List.nil_append]

theorem processIndustry_iteration (w : World) (tr : List Event) (X : JSString) :
    ∃ seg, IsIteration X seg ∧ (processIndustry w tr X).1 = tr ++ seg := by
  rcases processIndustry_cases w tr X with ⟨e, _, h⟩ | ⟨res, insights, t₁, t₂, r, _, _, _, _, _, h⟩
  · exact ⟨_, Or.inl ⟨_, rfl⟩, by rw [h]⟩
  · exact ⟨_, Or.inr ⟨res, insights, t₁, t₂, r, rfl⟩, by rw [h]⟩

theorem processAll_cons (w : World) (tr : List Event) (X : JSString) (rest : List JSString) :
    processAll w tr (X :: rest) = processAll w (processIndustry w tr X).1 rest := by
  rcases h : processIndustry w tr X with ⟨tr₁, r⟩
  cases r <;> simp only [processAll, h]

theorem processAll_append (w : World) : ∀ (pre post : List JSString) (tr : List Event),
    processAll w tr (pre ++ post) = processAll w (processAll w tr pre) post
  | [], _, _ => rfl
  | X :: pre, post, tr => by
      rw [List.cons_append, processAll_cons, processAll_cons, processAll_append w pre post]

theorem processAll_segments (w : World) : ∀ (L : List JSString) (tr : List Event),
    ∃ segs, List.Forall₂ IsIteration L segs ∧ processAll w tr L = tr ++ segs.flatten
  | [], tr => ⟨[], List.Forall₂.nil, by simp [processAll]⟩
  | X :: rest, tr => by
      obtain ⟨seg, hseg, h1⟩ := processIndustry_iteration w tr X
      obtain ⟨segs, hsegs, h2⟩ := processAll_segments w rest (processIndustry w tr X).1
      refine ⟨seg :: segs, List.Forall₂.cons hseg hsegs, ?_⟩
      rw [processAll_cons, h2, h1, List.flatten_cons, List.append_assoc]

theorem processAll_extends (w : World) (L : List JSString) (tr : List Event) :
    tr <+: processAll w tr L := by
  obtain ⟨segs, _, h⟩ := processAll_segments w L tr
  rw [h]
  exact List.prefix_append _ _

theorem fetchIndustries_of_findMany {w : World} {L : List JSString}
    (h : w.findMany = .ok (some L)) : fetchIndustries w = .ok L := by
  unfold fetchIndustries
  rw [h]
  cases L with
  | nil => rfl
  | cons a t => simp

theorem job_of_fetch {w : World} {L : List JSString} (h : fetchIndustries w = .ok L) :
    generateIndustryInsights w = (processAll w [Event.findMany w.findMany] L, .ok ()) := by
  unfold generateIndustryInsights
  rw [h]
  cases L with
  | nil => rfl
  | cons a t => simp

theorem job_of_error {w : World} {e : Thrown} (h : w.findMany = .error e) :
    generateIndustryInsights w = ([Event.findMany (.error e)], .error e) := by
  unfold generateIndustryInsights fetchIndustries
  rw [h]

theorem fetchIndustries_cases (w : World) :
    (∃ e, w.findMany = .error e) ∨ (∃ L, fetchIndustries w = .ok L) := by
  unfold fetchIndustries
  rcases h : w.findMany with e | (_ | L)
  · exact Or.inl ⟨e, rfl⟩
  · exact Or.inr ⟨[], rfl⟩
  · right
    by_cases hl : L.length = 0
    · exact ⟨[], by simp [hl]⟩
    · exact ⟨L, by simp [hl]⟩

/-! ## Reading the calls of an iteration -/

theorem generatedPrompts_iteration {X : JSString} {seg : List Event} (h : IsIteration X seg) :
    generatedPrompts seg = [buildPrompt X] := by
  rcases h with ⟨res, rfl⟩ | ⟨res, insights, t₁, t₂, r, rfl⟩ <;> rfl

theorem generatedPrompts_join : ∀ (L : List JSString) (segs : List (List Event)),
    List.Forall₂ IsIteration L segs → generatedPrompts segs.flatten = L.map buildPrompt
  | _, _, List.Forall₂.nil => rfl
  | _, _, List.Forall₂.cons h hs => by
      have ih := generatedPrompts_join _ _ hs
      unfold generatedPrompts at ih ⊢
      rw [List.flatten_cons, List.filterMap_append]
      have := generatedPrompts_iteration h
      unfold generatedPrompts at this
      rw [this, ih]
      rfl

theorem buildPrompt_injective : Function.Injective buildPrompt := by
  intro a b h
  unfold buildPrompt at h
  rw [List.append_assoc, List.append_assoc] at h
  exact List.append_cancel_right (List.append_cancel_left h)

theorem persistedUpdates_append (a b : List Event) :
    persistedUpdates (a ++ b) = persistedUpdates a ++ persistedUpdates b := by
  unfold persistedUpdates
  exact List.filterMap_append _ _ _

theorem succeeded_cons (w : World) (tr : List Event) (X : JSString) (rest : List JSString) :
    succeeded w tr (X :: rest) =
      (if (processIndustry w tr X).2.isOk then [X] else [])
        ++ succeeded w (processIndustry w tr X).1 rest := by
  rcases h : processIndustry w tr X with ⟨tr₁, r⟩
  cases r with
  | error e => simp [succeeded, h, Except.isOk, Except.toBool]
  | ok u => simp [succeeded, h, Except.isOk, Except.toBool]

theorem isOk_of_eq {r : Except Thrown Unit} (h : r = .ok ()) : r.isOk = true := by
  subst h; rfl

theorem eq_of_isOk {r : Except Thrown Unit} (h : r.isOk = true) : r = .ok () := by
  cases r with
  | error e => cases h
  | ok u => rfl

theorem persistedUpdates_processIndustry (w : World) (tr : List Event) (X : JSString) :
    persistedUpdates (processIndustry w tr X).1 =
      persistedUpdates tr ++ (if (processIndustry w tr X).2.isOk then [X] else []) := by
  rcases processIndustry_cases w tr X with ⟨e, _, h⟩ | ⟨res, insights, t₁, t₂, r, _, _, _, _, _, h⟩
  · rw [h, persistedUpdates_append]
    rfl
  · rw [h, persistedUpdates_append]
    cases r with
    | error e => rfl
    | ok u => rfl

theorem persistedUpdates_processAll (w : World) : ∀ (L : List JSString) (tr : List Event),
    persistedUpdates (processAll w tr L) = persistedUpdates tr ++ succeeded w tr L
  | [], tr => by simp [processAll, succeeded]
  | X :: rest, tr => by
      rw [processAll_cons, persistedUpdates_processAll w rest, persistedUpdates_processIndustry,
        succeeded_cons, List.append_assoc]

theorem succeeded_all (w : World) : ∀ (L : List JSString) (tr : List Event),
    (∀ i (hi : i < L.length),
      (processIndustry w (processAll w tr (L.take i)) (L.get ⟨i, hi⟩)).2 = .ok ()) →
    succeeded w tr L = L
  | [], _, _ => rfl
  | X :: rest, tr, h => by
      have h0 := h 0 (by simp)
      simp only [List.take_zero, processAll, List.get_eq_getElem, List.getElem_cons_zero] at h0
      rw [succeeded_cons, if_pos (isOk_of_eq h0), succeeded_all w rest]
      · rfl
      · intro i hi
        have := h (i + 1) (by simpa using hi)
        simpa [processAll_cons] using this

theorem succeeded_all_but (w : World) : ∀ (L : List JSString) (tr : List Event) (k : Nat),
    k < L.length →
    (∀ i (hi : i < L.length),
      (processIndustry w (processAll w tr (L.take i)) (L.get ⟨i, hi⟩)).2 = .ok () ↔ i ≠ k) →
    succeeded w tr L = L.eraseIdx k
  | [], _, _, hk, _ => by simp at hk
  | X :: rest, tr, 0, _, h => by
      have h0 := h 0 (by simp)
      simp only [List.take_zero, processAll, List.get_eq_getElem, List.getElem_cons_zero] at h0
      have hne : ¬ (processIndustry w tr X).2.isOk = true := fun hh => (h0.mp (eq_of_isOk hh)) rfl
      rw [succeeded_cons, if_neg hne, succeeded_all w rest]
      · rfl
      · intro i hi
        have := (h (i + 1) (by simpa using hi)).mpr (by omega)
        simpa [processAll_cons] using this
  | X :: rest, tr, k + 1, hk, h => by
      have h0 := (h 0 (by simp)).mpr (by omega)
      simp only [List.take_zero, processAll, List.get_eq_getElem, List.getElem_cons_zero] at h0
      rw [succeeded_cons, if_pos (isOk_of_eq h0), succeeded_all_but w rest _ k (by simpa using hk)]
      · rfl
      · intro i hi
        have := h (i + 1) (by simpa using hi)
        simpa [processAll_cons] using this

theorem processAll_contains (w : World) (tr : List Event) (pre : List JSString) (X : JSString)
    (post : List JSString) :
    (processIndustry w (processAll w tr pre) X).1 <+: processAll w tr (pre ++ X :: post) := by
  rw [processAll_append, processAll_cons]
  exact processAll_extends w post _

/-- C1. Per-industry failure isolation: whatever list storage returns and
whichever passes fail, the job ends without raising; the updates storage
accepted are exactly the entries whose pass did not fail, in order and once
each; the calls of such a pass are one generation call, two clock readings and
one accepted update for that entry; and when pass `k` is the only one to fail,
the accepted updates are the list without entry `k`. -/
theorem failure_isolation (w : World) (L : List JSString)
    (hL : w.findMany = .ok (some L)) :
    (generateIndustryInsights w).2 = .ok () ∧
    persistedUpdates (generateIndustryInsights w).1 = succeeded w [Event.findMany w.findMany] L ∧
    (∀ pre X post, L = pre ++ X :: post →
      (processIndustry w (processAll w [Event.findMany w.findMany] pre) X).2 = .ok () →
      ∃ res insights t₁ t₂,
        (processAll w [Event.findMany w.findMany] pre ++
          [Event.generate (buildPrompt X) (.ok res), Event.now t₁, Event.now t₂,
            Event.update X (updateData insights t₁ t₂) (.ok ())])
          <+: (generateIndustryInsights w).1) ∧
    (∀ k, k < L.length →
      (∀ i (hi : i < L.length),
        (processIndustry w (processAll w [Event.findMany w.findMany] (L.take i)) (L.get ⟨i, hi⟩)).2
          = .ok () ↔ i ≠ k) →
      persistedUpdates (generateIndustryInsights w).1 = L.eraseIdx k) := by
  have hjob := job_of_fetch (fetchIndustries_of_findMany hL)
  have hpers : persistedUpdates (generateIndustryInsights w).1
      = succeeded w [Event.findMany w.findMany] L := by
    rw [hjob, persistedUpdates_processAll]
    rfl
  refine ⟨by rw [hjob], hpers, ?_, ?_⟩
  · intro pre X post hsplit hok
    have hin := processAll_contains w [Event.findMany w.findMany] pre X post
    rw [← hsplit] at hin
    rw [hjob]
    rcases processIndustry_cases w (processAll w [Event.findMany w.findMany] pre) X with
      ⟨e, _, h⟩ | ⟨res, insights, t₁, t₂, r, _, _, _, _, _, h⟩
    · rw [h] at hok; cases hok
    · rw [h] at hok hin
      simp only at hok
      subst hok
      exact ⟨res, insights, t₁, t₂, hin⟩
  · intro k hk hall
    rw [hpers]
    exact succeeded_all_but w L _ k hk hall

/-- C10. Sequential processing without retries: after the listing call the
job's calls are, entry by entry in the order of the list, one generation call
for that entry followed by nothing or by two clock readings and one update keyed
by that same entry; so the prompts sent are those of the list in order, distinct
industries have distinct prompts, and for the empty list the listing call is the
only call.  The job ends without an error. -/
theorem sequential_processing (w : World) (L : List JSString) (hL : fetchIndustries w = .ok L) :
    (generateIndustryInsights w).2 = .ok () ∧
    (∃ segs, List.Forall₂ IsIteration L segs ∧
      (generateIndustryInsights w).1 = Event.findMany w.findMany :: segs.flatten) ∧
    generatedPrompts (generateIndustryInsights w).1 = L.map buildPrompt ∧
    Function.Injective buildPrompt ∧
    (L = [] → (generateIndustryInsights w).1 = [Event.findMany w.findMany]) := by
  have hjob := job_of_fetch hL
  obtain ⟨segs, hsegs, hrun⟩ := processAll_segments w L [Event.findMany w.findMany]
  refine ⟨by rw [hjob], ⟨segs, hsegs, by rw [hjob, hrun]; rfl⟩, ?_, buildPrompt_injective, ?_⟩
  · rw [hjob, hrun]
    have := generatedPrompts_join L segs hsegs
    unfold generatedPrompts at this ⊢
    rw [List.filterMap_append, this]
    rfl
  · intro hnil
    rw [hjob, hnil]
    rfl

/-- C8. Fatal listing failure: when the listing query throws `e`, the job
raises that same `e`, and the listing call is the only call made: no generation
call and no update call. -/
theorem listing_failure_is_fatal (w : World) (e : Thrown) (h : w.findMany = .error e) :
    generateIndustryInsights w = ([Event.findMany (.error e)], .error e) ∧
    generatedPrompts (generateIndustryInsights w).1 = [] ∧
    issuedUpdates (generateIndustryInsights w).1 = [] := by
  rw [job_of_error h]
  exact ⟨rfl, rfl, rfl⟩

/-! ## Records -/

theorem lookup_setKey_self {α : Type} (k : JSString) (v : α) :
    ∀ (l : List (JSString × α)), (setKey k v l).lookup k = some v
  | [] => by simp [setKey, List.lookup]
  | (k', v') :: rest => by
      by_cases h : k' = k
      · simp [setKey, h, List.lookup]
      · have h' : (k == k') = false := by simpa using fun e => h e.symm
        simp only [setKey, h, if_false, List.lookup, h', lookup_setKey_self k v rest]

theorem lookup_setKey_ne {α : Type} (k j : JSString) (v : α) (hne : j ≠ k) :
    ∀ (l : List (JSString × α)), (setKey k v l).lookup j = l.lookup j
  | [] => by
      have h' : (j == k) = false := by simpa using hne
      simp [setKey, List.lookup, h']
  | (k', v') :: rest => by
      by_cases h : k' = k
      · subst h
        have h' : (j == k') = false := by simpa using hne
        simp [setKey, List.lookup, h']
      · simp only [setKey, h, if_false, List.lookup, lookup_setKey_ne k j v hne rest]

theorem lookup_map_value {α β : Type} (f : α → β) (k : JSString) :
    ∀ (l : List (JSString × α)), (l.map (fun p => (p.1, f p.2))).lookup k = (l.lookup k).map f
  | [] => rfl
  | (k', v') :: rest => by
      simp only [List.map, List.lookup]
      cases k == k'
      · exact lookup_map_value f k rest
      · rfl

theorem mapEnum_ok {table : Table} {field d u : JSString} {r : Record}
    (hget : r.lookup field = some (.val (.str d))) (hd : d ≠ [])
    (ht : table.lookup d = some u) (hu : u ≠ []) :
    mapEnum table field r = .ok (setKey field (.val (.str u)) r) := by
  have hv : r.get field = .val (.str d) := by simp [Record.get, hget]
  have htr : (Slot.val (.str d)).truthy = true := by
    cases d with
    | nil => exact absurd rfl hd
    | cons a t => rfl
  have hts : (Slot.val (.str d)).toStr = .ok d := rfl
  have hg : table.get d = .val (.str u) := by simp [Table.get, ht]
  have hut : (Slot.val (.str u)).truthy = true := by
    cases u with
    | nil => exact absurd rfl hu
    | cons a t => rfl
  simp only [mapEnum, hv, htr, hts, hg, hut, if_true]

theorem demandLevel_table {d : JSString}
    (h : d ∈ ["High".toList, "Medium".toList, "Low".toList]) :
    demandLevelMapping.lookup d = some (d.map Char.toUpper) ∧ d ≠ [] ∧ d.map Char.toUpper ≠ [] := by
  simp only [List.mem_cons, List.mem_singleton, List.not_mem_nil, or_false] at h
  rcases h with rfl | rfl | rfl <;> decide

theorem marketOutlook_table {m : JSString}
    (h : m ∈ ["Positive".toList, "Neutral".toList, "Negative".toList]) :
    marketOutlookMapping.lookup m = some (m.map Char.toUpper) ∧ m ≠ [] ∧ m.map Char.toUpper ≠ [] := by
  simp only [List.mem_cons, List.mem_singleton, List.not_mem_nil, or_false] at h
  rcases h with rfl | rfl | rfl <;> decide

theorem prepare_mapped {parse : JSString → Except Thrown JSVal} {res : JSVal}
    {text d m : JSString} {props : List (JSString × JSVal)}
    (htext : responseText res = .ok (.str text))
    (hparse : parse (cleanText text) = .ok (.obj props))
    (hd : props.lookup "demandLevel".toList = some (.str d))
    (hdm : d ∈ ["High".toList, "Medium".toList, "Low".toList])
    (hm : props.lookup "marketOutlook".toList = some (.str m))
    (hmm : m ∈ ["Positive".toList, "Neutral".toList, "Negative".toList]) :
    prepare parse res = .ok
      (setKey "marketOutlook".toList (.val (.str (m.map Char.toUpper)))
        (setKey "demandLevel".toList (.val (.str (d.map Char.toUpper)))
          (toRecord (.obj props)))) := by
  obtain ⟨hd1, hd2, hd3⟩ := demandLevel_table hdm
  obtain ⟨hm1, hm2, hm3⟩ := marketOutlook_table hmm
  have h1 : (toRecord (.obj props)).lookup "demandLevel".toList = some (.val (.str d)) := by
    unfold toRecord
    rw [lookup_map_value Slot.val, hd]
    rfl
  have e1 := mapEnum_ok h1 hd2 hd1 hd3
  have h2 : (setKey "demandLevel".toList (Slot.val (.str (d.map Char.toUpper)))
      (toRecord (.obj props))).lookup "marketOutlook".toList = some (.val (.str m)) := by
    rw [lookup_setKey_ne _ _ _ (by decide)]
    unfold toRecord
    rw [lookup_map_value Slot.val, hm]
    rfl
  have e2 := mapEnum_ok h2 hm2 hm1 hm3
  have hv : validate (cleanText text) (.obj props) = .ok () := rfl
  unfold prepare
  rw [htext]
  show (do
    let cleanedText ← cleanedTextOf (.str text)
    let insights ← parse cleanedText
    validate cleanedText insights
    let mapped ← mapEnum demandLevelMapping "demandLevel".toList (toRecord insights)
    mapEnum marketOutlookMapping "marketOutlook".toList mapped) = _
  show (do
    let insights ← parse (cleanText text)
    validate (cleanText text) insights
    let mapped ← mapEnum demandLevelMapping "demandLevel".toList (toRecord insights)
    mapEnum marketOutlookMapping "marketOutlook".toList mapped) = _
  rw [hparse]
  show (do
    validate (cleanText text) (.obj props)
    let mapped ← mapEnum demandLevelMapping "demandLevel".toList (toRecord (.obj props))
    mapEnum marketOutlookMapping "marketOutlook".toList mapped) = _
  rw [hv, e1]
  exact e2

theorem updateData_lastUpdated (insights : Record) (t₁ t₂ : Int) :
    (updateData insights t₁ t₂).lookup "lastUpdated".toList = some (.date t₁) := by
  unfold updateData
  rw [lookup_setKey_ne _ _ _ (by decide), lookup_setKey_self]

theorem updateData_nextUpdate (insights : Record) (t₁ t₂ : Int) :
    (updateData insights t₁ t₂).lookup "nextUpdate".toList = some (newDate (t₂ + sevenDays)) := by
  unfold updateData
  rw [lookup_setKey_self]

theorem updateData_spread (insights : Record) (t₁ t₂ : Int) (k : JSString)
    (h1 : k ≠ "lastUpdated".toList) (h2 : k ≠ "nextUpdate".toList) :
    (updateData insights t₁ t₂).lookup k = (insights.lookup k).map Field.slot := by
  unfold updateData
  rw [lookup_setKey_ne _ _ _ h2, lookup_setKey_ne _ _ _ h1, lookup_map_value Field.slot]

/-- C4. Content of a successful update: for an entry `X` of the storage list
whose response text, once cleaned, parses to an object with `demandLevel` among
High, Medium, Low and `marketOutlook` among Positive, Neutral, Negative, the job
calls the generation service, reads the clock twice and issues an update keyed
by `X`; its data has both fields in upper case, every other property of the
parsed object unchanged, `lastUpdated` the first clock reading and `nextUpdate`
the second reading plus seven days.  The job reports success. -/
theorem successful_update_content (w : World) (L pre post : List JSString) (X : JSString)
    (res : JSVal) (text d m : JSString) (props : List (JSString × JSVal))
    (hL : w.findMany = .ok (some L)) (hsplit : L = pre ++ X :: post)
    (hgen : w.generateContent (processAll w [Event.findMany w.findMany] pre) (buildPrompt X)
      = .ok res)
    (htext : responseText res = .ok (.str text))
    (hparse : w.jsonParse (cleanText text) = .ok (.obj props))
    (hd : props.lookup "demandLevel".toList = some (.str d))
    (hdm : d ∈ ["High".toList, "Medium".toList, "Low".toList])
    (hm : props.lookup "marketOutlook".toList = some (.str m))
    (hmm : m ∈ ["Positive".toList, "Neutral".toList, "Negative".toList]) :
    (generateIndustryInsights w).2 = .ok () ∧
    ∃ t₁ t₂ data r,
      (processAll w [Event.findMany w.findMany] pre ++
        [Event.generate (buildPrompt X) (.ok res), Event.now t₁, Event.now t₂,
          Event.update X data r]) <+: (generateIndustryInsights w).1 ∧
      data.lookup "demandLevel".toList = some (.slot (.val (.str (d.map Char.toUpper)))) ∧
      data.lookup "marketOutlook".toList = some (.slot (.val (.str (m.map Char.toUpper)))) ∧
      (∀ k, k ∉ mappedOrStamped →
        data.lookup k = (props.lookup k).map (fun v => Field.slot (.val v))) ∧
      data.lookup "lastUpdated".toList = some (.date t₁) ∧
      data.lookup "nextUpdate".toList = some (newDate (t₂ + 604800000)) ∧
      t₁ = w.now (processAll w [Event.findMany w.findMany] pre ++
        [Event.generate (buildPrompt X) (.ok res)]) ∧
      t₂ = w.now (processAll w [Event.findMany w.findMany] pre ++
        [Event.generate (buildPrompt X) (.ok res), Event.now t₁]) := by
  have hjob := job_of_fetch (fetchIndustries_of_findMany hL)
  have hprep := prepare_mapped htext hparse hd hdm hm hmm
  have hin := processAll_contains w [Event.findMany w.findMany] pre X post
  rw [← hsplit] at hin
  refine ⟨by rw [hjob], ?_⟩
  rcases processIndustry_cases w (processAll w [Event.findMany w.findMany] pre) X with
    ⟨e, he, _⟩ | ⟨res', insights, t₁, t₂, r, hres, hins, ht₁, ht₂, _, h⟩
  · rw [hgen] at he
    have he' : prepare w.jsonParse res = .error e := he
    rw [hprep] at he'
    cases he'
  · rw [hgen] at hres
    cases hres
    rw [hprep] at hins
    cases hins
    rw [h] at hin
    refine ⟨t₁, t₂, _, r, by rw [hjob]; exact hin, ?_, ?_, ?_, updateData_lastUpdated _ _ _,
      updateData_nextUpdate _ _ _, ht₁, ht₂⟩
    · rw [updateData_spread _ _ _ _ (by decide) (by decide),
        lookup_setKey_ne _ _ _ (by decide), lookup_setKey_self]
      rfl
    · rw [updateData_spread _ _ _ _ (by decide) (by decide), lookup_setKey_self]
      rfl
    · intro k hk
      simp only [mappedOrStamped, List.mem_cons, List.mem_singleton, List.not_mem_nil, or_false,
        not_or] at hk
      obtain ⟨k1, k2, k3, k4⟩ := hk
      rw [updateData_spread _ _ _ _ k3 k4, lookup_setKey_ne _ _ _ k2, lookup_setKey_ne _ _ _ k1]
      unfold toRecord
      rw [lookup_map_value Slot.val]
      cases props.lookup k <;> rfl

/-! ## Values that are not objects -/

theorem digitChar_isDigit : ∀ m, m < 10 → (Nat.digitChar m).isDigit = true := by decide

theorem toDigitsCore_digits : ∀ (fuel n : Nat) (ds : List Char),
    (∀ c ∈ ds, c.isDigit = true) → ∀ c ∈ Nat.toDigitsCore 10 fuel n ds, c.isDigit = true
  | 0, _, ds, h => by simpa [Nat.toDigitsCore] using h
  | fuel + 1, n, ds, h => by
      have hd : ∀ c ∈ Nat.digitChar (n % 10) :: ds, c.isDigit = true := by
        intro c hc
        rcases List.mem_cons.mp hc with rfl | hc
        · exact digitChar_isDigit _ (Nat.mod_lt _ (by decide))
        · exact h c hc
      simp only [Nat.toDigitsCore]
      split
      · exact hd
      · exact toDigitsCore_digits fuel _ _ hd

theorem toDigits_ne_of_letter (n : Nat) (k : JSString) (c : Char) (hc : c ∈ k)
    (hl : c.isDigit = false) : Nat.toDigits 10 n ≠ k := by
  intro h
  have := toDigitsCore_digits (n + 1) n [] (by simp) c (by rw [← h] at hc; exact hc)
  rw [hl] at this
  cases this

theorem lookup_eq_none_of_keys {α : Type} (k : JSString) :
    ∀ (l : List (JSString × α)), (∀ p ∈ l, p.1 ≠ k) → l.lookup k = none
  | [], _ => rfl
  | (k', v) :: rest, h => by
      have h1 : (k == k') = false := by
        have := h (k', v) (List.mem_cons_self _ _)
        simpa using fun e => this e.symm
      simp only [List.lookup, h1]
      exact lookup_eq_none_of_keys k rest (fun p hp => h p (List.mem_cons_of_mem _ hp))

theorem array_has_no_demandLevel (items : List JSVal) :
    (toRecord (.arr items)).get "demandLevel".toList = .val .undefined := by
  have hnone : (toRecord (.arr items)).lookup "demandLevel".toList = none := by
    apply lookup_eq_none_of_keys
    intro p hp
    simp only [toRecord, List.mem_map] at hp
    obtain ⟨q, _, rfl⟩ := hp
    exact toDigits_ne_of_letter q.1 _ 'd' (by decide) (by decide)
  simp only [Record.get, hnone]
  rfl

theorem prepare_primitive {parse : JSString → Except Thrown JSVal} {res v : JSVal}
    {text : JSString} (htext : responseText res = .ok (.str text))
    (hparse : parse (cleanText text) = .ok v) (hv : v.isPrimitive = true) :
    prepare parse res = .error (.error
      ("Invalid insights format received from Gemini AI: ".toList ++ cleanText text)) := by
  have hval : validate (cleanText text) v = .error (.error
      ("Invalid insights format received from Gemini AI: ".toList ++ cleanText text)) := by
    cases v with
    | undefined => rfl
    | null => rfl
    | bool b => cases b <;> rfl
    | num n => rcases n with ⟨_ | _, t⟩ <;> rfl
    | str s => cases s <;> rfl
    | arr items => cases hv
    | obj props => cases hv
  unfold prepare
  rw [htext]
  show (do
    let insights ← parse (cleanText text)
    validate (cleanText text) insights
    let mapped ← mapEnum demandLevelMapping "demandLevel".toList (toRecord insights)
    mapEnum marketOutlookMapping "marketOutlook".toList mapped) = _
  rw [hparse]
  show (do
    validate (cleanText text) v
    let mapped ← mapEnum demandLevelMapping "demandLevel".toList (toRecord v)
    mapEnum marketOutlookMapping "marketOutlook".toList mapped) = _
  rw [hval]
  rfl

theorem prepare_array {parse : JSString → Except Thrown JSVal} {res : JSVal}
    {text : JSString} {items : List JSVal} (htext : responseText res = .ok (.str text))
    (hparse : parse (cleanText text) = .ok (.arr items)) :
    prepare parse res = .error (.error "Invalid demandLevel value: undefined".toList) := by
  have hmap : mapEnum demandLevelMapping "demandLevel".toList (toRecord (.arr items))
      = .error (.error "Invalid demandLevel value: undefined".toList) := by
    simp only [mapEnum, array_has_no_demandLevel]
    rfl
  unfold prepare
  rw [htext]
  show (do
    let insights ← parse (cleanText text)
    validate (cleanText text) insights
    let mapped ← mapEnum demandLevelMapping "demandLevel".toList (toRecord insights)
    mapEnum marketOutlookMapping "marketOutlook".toList mapped) = _
  rw [hparse]
  show (do
    let mapped ← mapEnum demandLevelMapping "demandLevel".toList (toRecord (.arr items))
    mapEnum marketOutlookMapping "marketOutlook".toList mapped) = _
  rw [hmap]
  rfl

theorem processIndustry_failed {w : World} {tr : List Event} {X : JSString} {res : JSVal}
    {e : Thrown} (hgen : w.generateContent tr (buildPrompt X) = .ok res)
    (h : prepare w.jsonParse res = .error e) :
    processIndustry w tr X = (tr ++ [Event.generate (buildPrompt X) (.ok res)], .error e) := by
  have h' : (Except.ok res >>= prepare w.jsonParse) = .error e := h
  simp only [processIndustry, hgen, h']

/-- C9, amended. Object validation: when the cleaned text parses to `null`,
a boolean, a number or a string, the pass fails with the error `Invalid insights
format received from Gemini AI: ` followed by the cleaned text; when it parses
to an array the check of line 179 lets it through and the pass fails with
`Invalid demandLevel value: undefined`.  Either way the generation call is the
only call of the pass: no update is issued. -/
theorem non_object_rejected (w : World) (tr : List Event) (X : JSString) (res v : JSVal)
    (text : JSString)
    (hgen : w.generateContent tr (buildPrompt X) = .ok res)
    (htext : responseText res = .ok (.str text))
    (hparse : w.jsonParse (cleanText text) = .ok v) :
    (v.isPrimitive = true →
      processIndustry w tr X = (tr ++ [Event.generate (buildPrompt X) (.ok res)],
        .error (.error
          ("Invalid insights format received from Gemini AI: ".toList ++ cleanText text)))) ∧
    (∀ items, v = .arr items →
      processIndustry w tr X = (tr ++ [Event.generate (buildPrompt X) (.ok res)],
        .error (.error "Invalid demandLevel value: undefined".toList))) := by
  constructor
  · intro hv
    exact processIndustry_failed hgen (prepare_primitive htext hparse hv)
  · rintro items rfl
    exact processIndustry_failed hgen (prepare_array htext hparse)

theorem forall₂_right {α β : Type} {R : α → β → Prop} : ∀ {l₁ : List α} {l₂ : List β},
    List.Forall₂ R l₁ l₂ → ∀ b ∈ l₂, ∃ a ∈ l₁, R a b
  | _, _, List.Forall₂.nil, b, hb => by cases hb
  | _, _, List.Forall₂.cons h hs, b, hb => by
      rcases List.mem_cons.mp hb with rfl | hb
      · exact ⟨_, List.mem_cons_self _ _, h⟩
      · obtain ⟨a, ha, hr⟩ := forall₂_right hs b hb
        exact ⟨a, List.mem_cons_of_mem _ ha, hr⟩

/-- C5, amended. Refresh interval: every update the job issues comes right
after two clock readings; `lastUpdated` is the first reading and `nextUpdate` is
the second reading plus 604800000 ms, seven days.  When both readings are the
same millisecond, `nextUpdate` is `lastUpdated` plus exactly seven days. -/
theorem refresh_interval_from_clock (w : World) (X : JSString) (data : Data)
    (r : Except Thrown Unit)
    (hmem : Event.update X data r ∈ (generateIndustryInsights w).1) :
    ∃ t₁ t₂,
      [Event.now t₁, Event.now t₂, Event.update X data r] <:+: (generateIndustryInsights w).1 ∧
      data.lookup "lastUpdated".toList = some (.date t₁) ∧
      data.lookup "nextUpdate".toList = some (newDate (t₂ + 604800000)) ∧
      (t₂ = t₁ → -8640000000000000 ≤ t₁ + 604800000 → t₁ + 604800000 ≤ 8640000000000000 →
        data.lookup "nextUpdate".toList = some (.date (t₁ + 604800000))) := by
  rcases fetchIndustries_cases w with ⟨e, he⟩ | ⟨L, hL⟩
  · rw [job_of_error he] at hmem
    simp at hmem
  · obtain ⟨segs, hsegs, hrun⟩ := processAll_segments w L [Event.findMany w.findMany]
    have htrace : (generateIndustryInsights w).1 = Event.findMany w.findMany :: segs.flatten := by
      rw [job_of_fetch hL, hrun]; rfl
    rw [htrace] at hmem ⊢
    rcases List.mem_cons.mp hmem with h | h
    · cases h
    · obtain ⟨seg, hseg, hin⟩ := List.mem_flatten.mp h
      obtain ⟨X', _, hit⟩ := forall₂_right hsegs seg hseg
      have hinfix : seg <:+: Event.findMany w.findMany :: segs.flatten :=
        (List.infix_of_mem_flatten hseg).trans (List.suffix_cons _ _).isInfix
      rcases hit with ⟨res, rfl⟩ | ⟨res, insights, t₁, t₂, r', rfl⟩
      · simp at hin
      · simp at hin
        obtain ⟨rfl, rfl, rfl⟩ := hin
        refine ⟨t₁, t₂, ?_, updateData_lastUpdated _ _ _, updateData_nextUpdate _ _ _, ?_⟩
        · exact List.IsInfix.trans ⟨[Event.generate (buildPrompt X) (.ok res)], [], rfl⟩ hinfix
        · intro ht hlo hhi
          subst ht
          rw [updateData_nextUpdate]
          simp [newDate, sevenDays, hlo, hhi]

/-! ## The job on sample collaborators -/

/-- C2, at the failing input. A document whose `demandLevel` is the string
`constructor` passes the mapping of lines 184-188: the table inherits a member
of that name from `Object.prototype`, and `demandLevel` becomes that member. -/
theorem demandLevel_constructor_accepted :
    mapEnum demandLevelMapping "demandLevel".toList (toRecord (docValue "constructor".toList))
      = .ok [("growthRate".toList, .val (.num ⟨false, "5.2".toList⟩)),
          ("demandLevel".toList, .builtin "constructor".toList),
          ("marketOutlook".toList, .val (.str "Positive".toList)),
          ("topSkills".toList, .val (.arr [.str "Python".toList, .str "SQL".toList]))] := by
  rfl

set_option maxRecDepth 100000 in
/-- C3, at the failing input. For a document whose `demandLevel` is the string
`constructor` the job issues an update, and the `demandLevel` it carries is the
member the table inherits from `Object.prototype`, not an enum value. -/
theorem update_carries_inherited_member :
    generateIndustryInsights (oddWorld "constructor".toList) =
      ([Event.findMany (.ok (some ["tech-software-development".toList])),
        Event.generate (buildPrompt "tech-software-development".toList)
          (.ok (wrapResponse (.str (docText "constructor".toList)))),
        Event.now 1700000000000, Event.now 1700000000000,
        Event.update "tech-software-development".toList
          [("growthRate".toList, .slot (.val (.num ⟨false, "5.2".toList⟩))),
           ("demandLevel".toList, .slot (.builtin "constructor".toList)),
           ("marketOutlook".toList, .slot (.val (.str "POSITIVE".toList))),
           ("topSkills".toList, .slot (.val (.arr [.str "Python".toList, .str "SQL".toList]))),
           ("lastUpdated".toList, .date 1700000000000),
           ("nextUpdate".toList, .date 1700604800000)] (.ok ())], .ok ()) := by
  rfl

set_option maxRecDepth 100000 in
/-- C5, counterexample. With a clock that has moved on by a millisecond
between `new Date()` and `Date.now()`, the first update of the job carries a
`nextUpdate` that is not its `lastUpdated` plus seven days. -/
theorem refresh_interval_not_exact :
    ∃ X data r, Event.update X data r ∈ (generateIndustryInsights demoWorld).1 ∧
      data.lookup "lastUpdated".toList = some (.date 1700000000002) ∧
      data.lookup "nextUpdate".toList = some (.date 1700604800003) ∧
      (1700604800003 : Int) ≠ 1700000000002 + 604800000 := by
  refine ⟨"tech-software-development".toList,
    [("growthRate".toList, .slot (.val (.num ⟨false, "5.2".toList⟩))),
     ("demandLevel".toList, .slot (.val (.str "HIGH".toList))),
     ("marketOutlook".toList, .slot (.val (.str "POSITIVE".toList))),
     ("topSkills".toList, .slot (.val (.arr [.str "Python".toList, .str "SQL".toList]))),
     ("lastUpdated".toList, .date 1700000000002),
     ("nextUpdate".toList, .date 1700604800003)], .ok (), ?_, rfl, rfl, by decide⟩
  exact List.Mem.tail _ (List.Mem.tail _ (List.Mem.tail _ (List.Mem.tail _ (List.Mem.head _))))

set_option maxRecDepth 100000 in
/-- C9, counterexample. The response `[]` parses to an array; the pass fails
with `Invalid demandLevel value: undefined`, a message that does not contain
the cleaned text. -/
theorem array_passes_object_check :
    processIndustry arrayWorld [Event.findMany arrayWorld.findMany]
        "tech-software-development".toList
      = ([Event.findMany arrayWorld.findMany,
          Event.generate (buildPrompt "tech-software-development".toList)
            (.ok (wrapResponse (.str "[]".toList)))],
         .error (.error "Invalid demandLevel value: undefined".toList)) ∧
    ¬ ("[]".toList <:+: "Invalid demandLevel value: undefined".toList) := by
  refine ⟨rfl, by decide⟩

/-- C8, on sample collaborators. -/
theorem listing_failure_is_fatal_witness :
    brokenStorage.findMany = .error (.foreign 1) ∧
    generateIndustryInsights brokenStorage
      = ([Event.findMany (.error (.foreign 1))], .error (.foreign 1)) :=
  ⟨rfl, (listing_failure_is_fatal brokenStorage (.foreign 1) rfl).1⟩

set_option maxRecDepth 100000 in
/-- C10, on sample collaborators. -/
theorem sequential_processing_witness :
    fetchIndustries demoWorld
      = .ok ["tech-software-development".toList, "finance-banking".toList] ∧
    generatedPrompts (generateIndustryInsights demoWorld).1
      = [buildPrompt "tech-software-development".toList, buildPrompt "finance-banking".toList] :=
  ⟨rfl, (sequential_processing demoWorld _ rfl).2.2.1⟩

set_option maxRecDepth 100000 in
/-- C1, on sample collaborators. -/
theorem failure_isolation_witness :
    flakyWorld.findMany = .ok (some ["tech-software-development".toList,
      "finance-banking".toList, "healthcare-nursing".toList]) ∧
    (generateIndustryInsights flakyWorld).2 = .ok () ∧
    persistedUpdates (generateIndustryInsights flakyWorld).1
      = ["tech-software-development".toList, "healthcare-nursing".toList] :=
  ⟨rfl, (failure_isolation flakyWorld _ rfl).1,
    (failure_isolation flakyWorld _ rfl).2.2.2 1 (by decide) (by
      intro i hi
      have hi' : i < 3 := hi
      interval_cases i
      · exact ⟨fun _ => by decide, fun _ => rfl⟩
      · refine ⟨fun h => ?_, fun h => absurd rfl h⟩
        have hk : (processIndustry flakyWorld (processAll flakyWorld
            [Event.findMany flakyWorld.findMany] (List.take 1 ["tech-software-development".toList,
              "finance-banking".toList, "healthcare-nursing".toList]))
            "finance-banking".toList).2.isOk = false := rfl
        exact Bool.noConfusion (hk.symm.trans (isOk_of_eq h))
      · exact ⟨fun _ => by decide, fun _ => rfl⟩)⟩

set_option maxRecDepth 100000 in
/-- C9, on sample collaborators. -/
theorem non_object_rejected_witness :
    numberWorld.generateContent [Event.findMany numberWorld.findMany]
        (buildPrompt "tech-software-development".toList)
      = .ok (wrapResponse (.str " 42\n".toList)) ∧
    numberWorld.jsonParse (cleanText " 42\n".toList) = .ok (.num ⟨false, "42".toList⟩) ∧
    processIndustry numberWorld [Event.findMany numberWorld.findMany]
        "tech-software-development".toList
      = ([Event.findMany numberWorld.findMany] ++
          [Event.generate (buildPrompt "tech-software-development".toList)
            (.ok (wrapResponse (.str " 42\n".toList)))],
        .error (.error "Invalid insights format received from Gemini AI: 42".toList)) :=
  ⟨rfl, rfl,
    (non_object_rejected numberWorld _ "tech-software-development".toList _ _ " 42\n".toList
      rfl rfl rfl).1 rfl⟩

set_option maxRecDepth 100000 in
/-- C5, on sample collaborators. -/
theorem refresh_interval_from_clock_witness :
    Event.update "finance-banking".toList
        (updateData (setKey "marketOutlook".toList (.val (.str "POSITIVE".toList))
          (setKey "demandLevel".toList (.val (.str "HIGH".toList))
            (toRecord (docValue "High".toList)))) 1700000000006 1700000000007) (.ok ())
      ∈ (generateIndustryInsights demoWorld).1 ∧
    ∃ t₁ t₂,
      [Event.now t₁, Event.now t₂, Event.update "finance-banking".toList
        (updateData (setKey "marketOutlook".toList (.val (.str "POSITIVE".toList))
          (setKey "demandLevel".toList (.val (.str "HIGH".toList))
            (toRecord (docValue "High".toList)))) 1700000000006 1700000000007) (.ok ())]
        <:+: (generateIndustryInsights demoWorld).1 ∧
      (updateData (setKey "marketOutlook".toList (.val (.str "POSITIVE".toList))
          (setKey "demandLevel".toList (.val (.str "HIGH".toList))
            (toRecord (docValue "High".toList)))) 1700000000006 1700000000007).lookup
        "lastUpdated".toList = some (.date t₁) ∧
      (updateData (setKey "marketOutlook".toList (.val (.str "POSITIVE".toList))
          (setKey "demandLevel".toList (.val (.str "HIGH".toList))
            (toRecord (docValue "High".toList)))) 1700000000006 1700000000007).lookup
        "nextUpdate".toList = some (newDate (t₂ + 604800000)) :=
  have hmem : Event.update "finance-banking".toList
        (updateData (setKey "marketOutlook".toList (.val (.str "POSITIVE".toList))
          (setKey "demandLevel".toList (.val (.str "HIGH".toList))
            (toRecord (docValue "High".toList)))) 1700000000006 1700000000007) (.ok ())
      ∈ (generateIndustryInsights demoWorld).1 :=
    List.Mem.tail _ (List.Mem.tail _ (List.Mem.tail _ (List.Mem.tail _ (List.Mem.tail _
      (List.Mem.tail _ (List.Mem.tail _ (List.Mem.tail _ (List.Mem.head _))))))))
  ⟨hmem, (refresh_interval_from_clock demoWorld _ _ _ hmem).imp fun _ h =>
    h.imp fun _ h' => ⟨h'.1, h'.2.1, h'.2.2.1⟩⟩

set_option maxRecDepth 100000 in
/-- C4, on sample collaborators. -/
theorem successful_update_content_witness :
    demoWorld.findMany
      = .ok (some ["tech-software-development".toList, "finance-banking".toList]) ∧
    demoWorld.jsonParse
        (cleanText ("```json\n".toList ++ docText "High".toList ++ "\n```".toList))
      = .ok (docValue "High".toList) ∧
    generateIndustryInsights demoWorld =
      ([Event.findMany demoWorld.findMany,
        Event.generate (buildPrompt "tech-software-development".toList)
          (.ok (wrapResponse
            (.str ("```json\n".toList ++ docText "High".toList ++ "\n```".toList)))),
        Event.now 1700000000002, Event.now 1700000000003,
        Event.update "tech-software-development".toList
          [("growthRate".toList, .slot (.val (.num ⟨false, "5.2".toList⟩))),
           ("demandLevel".toList, .slot (.val (.str "HIGH".toList))),
           ("marketOutlook".toList, .slot (.val (.str "POSITIVE".toList))),
           ("topSkills".toList, .slot (.val (.arr [.str "Python".toList, .str "SQL".toList]))),
           ("lastUpdated".toList, .date 1700000000002),
           ("nextUpdate".toList, .date 1700604800003)] (.ok ()),
        Event.generate (buildPrompt "finance-banking".toList)
          (.ok (wrapResponse
            (.str ("```json\n".toList ++ docText "High".toList ++ "\n```".toList)))),
        Event.now 1700000000006, Event.now 1700000000007,
        Event.update "finance-banking".toList
          [("growthRate".toList, .slot (.val (.num ⟨false, "5.2".toList⟩))),
           ("demandLevel".toList, .slot (.val (.str "HIGH".toList))),
           ("marketOutlook".toList, .slot (.val (.str "POSITIVE".toList))),
           ("topSkills".toList, .slot (.val (.arr [.str "Python".toList, .str "SQL".toList]))),
           ("lastUpdated".toList, .date 1700000000006),
           ("nextUpdate".toList, .date 1700604800007)] (.ok ())], .ok ()) ∧
    ∃ t₁ t₂ data r,
      (processAll demoWorld [Event.findMany demoWorld.findMany]
          ["tech-software-development".toList] ++
        [Event.generate (buildPrompt "finance-banking".toList)
          (.ok (wrapResponse
            (.str ("```json\n".toList ++ docText "High".toList ++ "\n```".toList)))),
          Event.now t₁, Event.now t₂, Event.update "finance-banking".toList data r])
        <+: (generateIndustryInsights demoWorld).1 ∧
      data.lookup "demandLevel".toList = some (.slot (.val (.str "HIGH".toList))) ∧
      data.lookup "marketOutlook".toList = some (.slot (.val (.str "POSITIVE".toList))) ∧
      data.lookup "lastUpdated".toList = some (.date t₁) ∧
      data.lookup "nextUpdate".toList = some (newDate (t₂ + 604800000)) :=
  ⟨rfl, rfl, rfl,
    (successful_update_content demoWorld
      ["tech-software-development".toList, "finance-banking".toList]
      ["tech-software-development".toList] [] "finance-banking".toList
      (wrapResponse (.str ("```json\n".toList ++ docText "High".toList ++ "\n```".toList)))
      ("```json\n".toList ++ docText "High".toList ++ "\n```".toList)
      "High".toList "Positive".toList
      [("growthRate".toList, .num ⟨false, "5.2".toList⟩),
        ("demandLevel".toList, .str "High".toList),
        ("marketOutlook".toList, .str "Positive".toList),
        ("topSkills".toList, .arr [.str "Python".toList, .str "SQL".toList])]
      rfl rfl rfl rfl rfl rfl (by decide) rfl (by decide)).2.imp fun _ h =>
        h.imp fun _ h => h.imp fun _ h => h.imp fun _ h =>
          ⟨h.1, h.2.1, h.2.2.1, h.2.2.2.2.1, h.2.2.2.2.2.1⟩⟩

end Sensai
